import Mathlib

/-!
Shallow embedding of the short-road detection subsystem of
`raw_map/src/transform/find_short_roads.rs`.

Roads and intersections are stored as association lists (the source uses
`BTreeMap`s, iterated in order); geometry lengths are modelled as exact
rationals.  A Rust indexing operation or `unwrap` that can panic is modelled
by returning `Option`: `none` means the whole pass aborts and no resulting
graph state is observable (Rust panics abort the import pipeline).
-/

set_option autoImplicit false

/-- Modelled from the spec: the stable road identifier ("fields: two
intersection identifiers plus any disambiguating ordinal", §6); this is the
`OriginalRoad` key type with endpoints `i1`, `i2`. -/
structure OriginalRoad where
  osm_way_id : Nat
  i1 : Nat
  i2 : Nat
deriving DecidableEq

/-- Modelled from the spec: "tag set (mapping from string key to string
value, mutable)" (§3).  Represented as an association list; lookup returns
the first matching entry, insert replaces any entry for the key. -/
abbrev Tags := List (String × String)

/-- Lookup of a tag value by key (first matching entry). -/
def Tags.get? (t : Tags) (k : String) : Option String :=
  (t.find? (fun p => p.1 == k)).map Prod.snd

/-- Models `Tags::is(k, v)`: the tag set maps `k` to `v`. -/
def Tags.is (t : Tags) (k v : String) : Bool :=
  t.get? k == some v

/-- Models `Tags::insert(k, v)` on a string-to-string map: any previous
binding of `k` is replaced by `v`. -/
def Tags.insert (t : Tags) (k v : String) : Tags :=
  t.filter (fun p => p.1 != k) ++ [(k, v)]

/-- Modelled from the spec: "intersection type (enumerated: plain,
traffic-signal, stop-sign-controlled, border, ...)" (§3). -/
inductive IntersectionType where
  | StopSign
  | TrafficSignal
  | Border
  | Construction
deriving DecidableEq

/-- Modelled from the spec: an intersection record carrying its type (§3). -/
structure Intersection where
  intersection_type : IntersectionType
deriving DecidableEq

/-- Models `Intersection::is_border`: the intersection is a map-edge border
node ("Border intersection: a map-edge intersection ... never a merge
target", Glossary). -/
def Intersection.is_border (i : Intersection) : Bool :=
  i.intersection_type == IntersectionType.Border

/-- A road record.  `osm_tags` is the mutable tag set.  The two geometry
accessors that live outside this file's source are modelled from the spec as
per-road data: `geometry_length` models `road.get_geometry(id, config)`
("derived geometry (polyline; may fail to compute ...)", §3) as the
centerline length when the computation succeeds, and `is_driveable` models
`road.is_driveable(config)` ("a driveability predicate", §6). -/
structure RawRoad where
  osm_tags : Tags
  geometry_length : Option ℚ
  is_driveable : Bool
deriving DecidableEq

/-- The raw map graph: association lists of roads and intersections keyed by
their identifiers, plus the spec-modelled external accessors.
`trimmed_length` models the graph-level accessor
`trimmed_road_geometry(RoadID) -> optional<Polyline>` (§6), returning the
trimmed centerline length when defined.  `name_is_montlake` models the
`map.name == MapName::seattle("montlake")` comparison. -/
structure RawMap where
  roads : List (OriginalRoad × RawRoad)
  intersections : List (Nat × Intersection)
  trimmed_length : OriginalRoad → Option ℚ
  name_is_montlake : Bool

/-- Models `self.trimmed_road_geometry(id)`, reduced to the length of the
returned polyline (the only use the short-road passes make of it). -/
def RawMap.trimmed_road_geometry (m : RawMap) (id : OriginalRoad) : Option ℚ :=
  m.trimmed_length id

/-- Lookup of a road record by identifier; `none` models a panicking
`self.roads[...]` / `get_mut(...).unwrap()` on a missing key. -/
def lookupRoad (m : RawMap) (id : OriginalRoad) : Option RawRoad :=
  (m.roads.find? (fun p => p.1 == id)).map Prod.snd

/-- Lookup of an intersection record; `none` models a panicking
`self.intersections[...]` on a missing key. -/
def lookupIntersection (m : RawMap) (i : Nat) : Option Intersection :=
  (m.intersections.find? (fun p => p.1 == i)).map Prod.snd

/-- Modelled from the spec: the adjacency query
`roads_per_intersection(IntersectionID) -> set<RoadID>` (§6), the "derived
adjacency (count and identity of connected roads)" (§3): all road
identifiers having the given intersection as an endpoint, in map order. -/
def RawMap.roads_per_intersection (m : RawMap) (i : Nat) : List OriginalRoad :=
  (m.roads.map Prod.fst).filter (fun r => r.i1 == i || r.i2 == i)

/-- Models `distance_heuristic`: flag a road whose trimmed geometry is
available and shorter than 5.0 meters; a road whose geometry collapsed is
not flagged. -/
def distance_heuristic (id : OriginalRoad) (m : RawMap) : Bool :=
  match m.trimmed_road_geometry id with
  | some road_length => decide (road_length < (5 : ℚ))
  | none => false

/-- One step of `mark_short_roads`: `self.roads.get_mut(id).unwrap()
.osm_tags.insert("junction", "intersection")`.  `none` models the `unwrap`
panic when `id` is not a key of the road map. -/
def updateRoadTags (rs : List (OriginalRoad × RawRoad)) (id : OriginalRoad) :
    Option (List (OriginalRoad × RawRoad)) :=
  if (rs.find? (fun p => p.1 == id)).isSome then
    some (rs.map (fun p =>
      if p.1 == id then
        (p.1, { p.2 with osm_tags := p.2.osm_tags.insert "junction" "intersection" })
      else p))
  else
    none

/-- The `for id in &list` loop body of `mark_short_roads`, applied
sequentially. -/
def markShortRoadsGo (rs : List (OriginalRoad × RawRoad)) :
    List OriginalRoad → Option (List (OriginalRoad × RawRoad))
  | [] => some rs
  | id :: rest =>
    match updateRoadTags rs id with
    | some rs2 => markShortRoadsGo rs2 rest
    | none => none

/-- Models `RawMap::mark_short_roads`: tag every road in `list` with
`junction=intersection` and return the list; `none` models the panic on a
missing identifier. -/
def RawMap.mark_short_roads (m : RawMap) (list : List OriginalRoad) :
    Option (RawMap × List OriginalRoad) :=
  match markShortRoadsGo m.roads list with
  | some rs => some ({ m with roads := rs }, list)
  | none => none

/-- The accumulation loop of `find_short_roads`: push a road if it is tagged
`junction=intersection` (then `continue`), otherwise push it if
`consolidate_all && distance_heuristic(id, map)`. -/
def collectTaggedGo (m : RawMap) (consolidate_all : Bool) :
    List (OriginalRoad × RawRoad) → List OriginalRoad
  | [] => []
  | p :: rest =>
    if p.2.osm_tags.is "junction" "intersection" then
      p.1 :: collectTaggedGo m consolidate_all rest
    else if consolidate_all && distance_heuristic p.1 m then
      p.1 :: collectTaggedGo m consolidate_all rest
    else
      collectTaggedGo m consolidate_all rest

/-- The tag-and-distance accumulation pass of `find_short_roads` over all
roads of the map. -/
def collectTagged (m : RawMap) (consolidate_all : Bool) : List OriginalRoad :=
  collectTaggedGo m consolidate_all m.roads

/-- Models `find_short_roads(map, consolidate_all)`.  The
`overrides` parameter models the outcome of
`abstio::maybe_read_json::<Vec<OriginalRoad>>("merge_osm_ways.json", ...)`:
`some ways` for `Ok(ways)`, `none` for `Err` (file absent or unparseable).
The `if false && map.name == MapName::seattle("montlake")` dog-leg branch of
the source is statically disabled (`false && _` short-circuits), so it
contributes nothing here. -/
def find_short_roads (m : RawMap) (consolidate_all : Bool)
    (overrides : Option (List OriginalRoad)) : Option (RawMap × List OriginalRoad) :=
  let roads := collectTagged m consolidate_all
  let roads2 :=
    match overrides with
    | some ways => roads ++ ways
    | none => roads
  m.mark_short_roads roads2

/-- The per-road body of the `find_traffic_signal_clusters` loop:
`some true` means the road is pushed onto `results`, `some false` means it
is skipped, `none` means an intersection lookup panicked. -/
def signalClusterCheck (m : RawMap) (id : OriginalRoad) (road : RawRoad) :
    Option Bool :=
  if road.osm_tags.is "junction" "intersection" then some false
  else
    match lookupIntersection m id.i1 with
    | none => none
    | some i1 =>
      match lookupIntersection m id.i2 with
      | none => none
      | some i2 =>
        if i1.is_border || i2.is_border then some false
        else if i1.intersection_type != IntersectionType.TrafficSignal
            && i2.intersection_type != IntersectionType.TrafficSignal then
          some false
        else
          match road.geometry_length with
          | some len => some (decide (len ≤ (20 : ℚ)))
          | none => some false

/-- The `for (id, road) in &self.roads` loop of
`find_traffic_signal_clusters`. -/
def signalClustersGo (m : RawMap) :
    List (OriginalRoad × RawRoad) → Option (List OriginalRoad)
  | [] => some []
  | p :: rest =>
    match signalClusterCheck m p.1 p.2 with
    | none => none
    | some true => (signalClustersGo m rest).map (fun res => p.1 :: res)
    | some false => signalClustersGo m rest

/-- Models `RawMap::find_traffic_signal_clusters`: collect short roads near
traffic signals, then mark them. -/
def RawMap.find_traffic_signal_clusters (m : RawMap) :
    Option (RawMap × List OriginalRoad) :=
  match signalClustersGo m m.roads with
  | none => none
  | some results => m.mark_short_roads results

/-- The inner-loop body of `find_dog_legs` for one incident road `r`:
`some false` models `continue 'ROAD` (the candidate is abandoned),
`some true` means this incident road passes, `none` models a panicking
lookup.  The `||` between the two border tests short-circuits exactly as in
the source. -/
def dogLegConnCheck (m : RawMap) (r : OriginalRoad) : Option Bool :=
  match lookupRoad m r with
  | none => none
  | some road =>
    if !road.is_driveable then some false
    else
      match lookupIntersection m r.i1 with
      | none => none
      | some j1 =>
        if j1.is_border then some false
        else
          match lookupIntersection m r.i2 with
          | none => none
          | some j2 =>
            if j2.is_border then some false else some true

/-- The `for r in &connections` loop of `find_dog_legs`. -/
def dogLegConnsCheck (m : RawMap) : List OriginalRoad → Option Bool
  | [] => some true
  | r :: rest =>
    match dogLegConnCheck m r with
    | none => none
    | some false => some false
    | some true => dogLegConnsCheck m rest

/-- The per-endpoint body of `find_dog_legs`: the intersection must have
exactly 3 incident roads, all of which pass `dogLegConnCheck`.  (The
`if false && nearly_parallel(...)` refinement of the source is statically
disabled, so it contributes nothing here.) -/
def dogLegEndpointCheck (m : RawMap) (i : Nat) : Option Bool :=
  let connections := m.roads_per_intersection i
  if connections.length != 3 then some false
  else dogLegConnsCheck m connections

/-- The per-road body of the `'ROAD` loop of `find_dog_legs`: `some true`
means the road is pushed onto `results`. -/
def dogLegCheck (m : RawMap) (id : OriginalRoad) : Option Bool :=
  match m.trimmed_road_geometry id with
  | none => some false
  | some road_length =>
    if decide (road_length > (5 : ℚ)) then some false
    else
      match dogLegEndpointCheck m id.i1 with
      | none => none
      | some false => some false
      | some true =>
        match dogLegEndpointCheck m id.i2 with
        | none => none
        | some false => some false
        | some true => some true

/-- The `for id in self.roads.keys()` loop of `find_dog_legs`. -/
def dogLegsGo (m : RawMap) : List OriginalRoad → Option (List OriginalRoad)
  | [] => some []
  | id :: rest =>
    match dogLegCheck m id with
    | none => none
    | some true => (dogLegsGo m rest).map (fun res => id :: res)
    | some false => dogLegsGo m rest

/-- Models `RawMap::find_dog_legs`: collect short roads between two 3-way
driveable, border-free intersections, then mark them. -/
def RawMap.find_dog_legs (m : RawMap) : Option (RawMap × List OriginalRoad) :=
  match dogLegsGo m (m.roads.map Prod.fst) with
  | none => none
  | some results => m.mark_short_roads results

/-! ### Helper lemmas: tags -/

theorem Tags.get?_insert_self (t : Tags) (k v : String) :
    Tags.get? (Tags.insert t k v) k = some v := by
  unfold Tags.insert Tags.get?
  rw [List.find?_append]
  have h1 : (t.filter (fun p => p.1 != k)).find? (fun p => p.1 == k) = none := by
    rw [List.find?_eq_none]
    intro p hp
    have h2 := (List.mem_filter.1 hp).2
    simp only [bne_iff_ne, ne_eq] at h2
    simp [h2]
  rw [h1]
  simp

theorem Tags.get?_insert_ne (t : Tags) (k v k' : String) (h : k' ≠ k) :
    Tags.get? (Tags.insert t k v) k' = Tags.get? t k' := by
  unfold Tags.insert Tags.get?
  rw [List.find?_append]
  have h1 : ([(k, v)] : Tags).find? (fun p => p.1 == k') = none := by
    simp [Ne.symm h]
  have h2 : ∀ l : Tags, (l.filter (fun p => p.1 != k)).find? (fun p => p.1 == k') =
      l.find? (fun p => p.1 == k') := by
    intro l
    induction l with
    | nil => rfl
    | cons a l ih =>
      by_cases hak : a.1 = k
      · rw [List.filter_cons_of_neg (by simp [hak]),
          List.find?_cons_of_neg _ (by simp [hak, Ne.symm h])]
        exact ih
      · rw [List.filter_cons_of_pos (by simp [hak])]
        by_cases ha : a.1 = k'
        · rw [List.find?_cons_of_pos _ (by simp [ha]), List.find?_cons_of_pos _ (by simp [ha])]
        · rw [List.find?_cons_of_neg _ (by simp [ha]), List.find?_cons_of_neg _ (by simp [ha])]
          exact ih
  rw [h1, h2]
  simp

theorem Tags.insert_insert (t : Tags) (k v : String) :
    Tags.insert (Tags.insert t k v) k v = Tags.insert t k v := by
  unfold Tags.insert
  rw [List.filter_append, List.filter_filter]
  have h1 : ([(k, v)] : Tags).filter (fun p => p.1 != k) = [] := by simp
  have h2 : (t.filter fun a => (a.1 != k) && (a.1 != k)) = t.filter fun a => a.1 != k := by
    apply List.filter_congr
    intro p _
    cases hp : (p.1 != k) <;> simp [hp]
  rw [h1, h2]
  simp

/-! ### Helper lemmas: the commit step -/

/-- The effect of the commit step on a single road record. -/
def tagRoad (r : RawRoad) : RawRoad :=
  { r with osm_tags := r.osm_tags.insert "junction" "intersection" }

theorem tagRoad_idem (r : RawRoad) : tagRoad (tagRoad r) = tagRoad r := by
  unfold tagRoad
  simp [Tags.insert_insert]

/-- The effect of committing the whole list `l` on one stored entry. -/
def markEntry (l : List OriginalRoad) (p : OriginalRoad × RawRoad) :
    OriginalRoad × RawRoad :=
  if p.1 ∈ l then (p.1, tagRoad p.2) else p

theorem markEntry_fst (l : List OriginalRoad) (p : OriginalRoad × RawRoad) :
    (markEntry l p).1 = p.1 := by
  unfold markEntry
  split <;> rfl

theorem markEntry_step (id : OriginalRoad) (rest : List OriginalRoad)
    (p : OriginalRoad × RawRoad) :
    markEntry rest (markEntry [id] p) = markEntry (id :: rest) p := by
  unfold markEntry
  by_cases h1 : p.1 = id
  · simp only [List.mem_singleton, h1, if_pos rfl, List.mem_cons, true_or, if_pos]
    by_cases h2 : id ∈ rest
    · simp [h2, tagRoad_idem]
    · simp [h2]
  · simp only [List.mem_singleton, h1, if_neg, List.mem_cons]
    by_cases h2 : p.1 ∈ rest
    · simp [h1, h2]
    · simp [h1, h2]

theorem updateRoadTags_eq (rs : List (OriginalRoad × RawRoad)) (id : OriginalRoad)
    (rs' : List (OriginalRoad × RawRoad)) (h : updateRoadTags rs id = some rs') :
    rs' = rs.map (markEntry [id]) ∧ id ∈ rs.map Prod.fst := by
  unfold updateRoadTags at h
  split at h
  case isFalse => exact absurd h (by simp)
  case isTrue hfind =>
    rw [List.find?_isSome] at hfind
    obtain ⟨p, hp, hpe⟩ := hfind
    refine ⟨?_, ?_⟩
    · have := Option.some.inj h
      rw [← this]
      apply List.map_congr_left
      intro q _
      unfold markEntry tagRoad
      by_cases hq : q.1 = id
      · simp [hq]
      · simp [hq]
    · exact List.mem_map.2 ⟨p, hp, by simpa using hpe⟩

theorem markShortRoadsGo_eq (l : List OriginalRoad) :
    ∀ rs rs' : List (OriginalRoad × RawRoad), markShortRoadsGo rs l = some rs' →
      rs' = rs.map (markEntry l) ∧ ∀ id ∈ l, id ∈ rs.map Prod.fst := by
  induction l with
  | nil =>
    intro rs rs' h
    have h1 : rs = rs' := by simpa [markShortRoadsGo] using h
    constructor
    · rw [← h1]
      symm
      have : ∀ p ∈ rs, markEntry [] p = id p := by
        intro p _
        simp [markEntry]
      simpa using List.map_congr_left this
    · simp
  | cons hd rest ih =>
    intro rs rs' h
    unfold markShortRoadsGo at h
    cases hupd : updateRoadTags rs hd with
    | none => rw [hupd] at h; exact absurd h (by simp)
    | some rs2 =>
      rw [hupd] at h
      obtain ⟨hrs2, hhd⟩ := updateRoadTags_eq rs hd rs2 hupd
      obtain ⟨h1, h2⟩ := ih rs2 rs' h
      have hkeys : rs2.map Prod.fst = rs.map Prod.fst := by
        rw [hrs2, List.map_map]
        apply List.map_congr_left
        intro p _
        exact markEntry_fst [hd] p
      constructor
      · rw [h1, hrs2, List.map_map]
        apply List.map_congr_left
        intro p _
        exact markEntry_step hd rest p
      · intro id hid
        rcases List.mem_cons.1 hid with h3 | h3
        · rw [h3]; exact hhd
        · rw [← hkeys]; exact h2 id h3

theorem markShortRoadsGo_isSome (l : List OriginalRoad) :
    ∀ rs : List (OriginalRoad × RawRoad), (∀ id ∈ l, id ∈ rs.map Prod.fst) →
      (markShortRoadsGo rs l).isSome = true := by
  induction l with
  | nil => intro rs _; simp [markShortRoadsGo]
  | cons hd rest ih =>
    intro rs h
    have hhd : hd ∈ rs.map Prod.fst := h hd (List.mem_cons_self hd rest)
    obtain ⟨p, hp, hpe⟩ := List.mem_map.1 hhd
    have hupd : (updateRoadTags rs hd).isSome = true := by
      unfold updateRoadTags
      have : (rs.find? (fun q => q.1 == hd)).isSome := by
        rw [List.find?_isSome]
        exact ⟨p, hp, by simp [hpe]⟩
      simp [this]
    cases hu : updateRoadTags rs hd with
    | none => rw [hu] at hupd; exact absurd hupd (by simp)
    | some rs2 =>
      obtain ⟨hrs2, _⟩ := updateRoadTags_eq rs hd rs2 hu
      have hkeys : rs2.map Prod.fst = rs.map Prod.fst := by
        rw [hrs2, List.map_map]
        apply List.map_congr_left
        intro q _
        exact markEntry_fst [hd] q
      unfold markShortRoadsGo
      rw [hu]
      apply ih rs2
      intro id hid
      rw [hkeys]
      exact h id (List.mem_cons_of_mem hd hid)

theorem mark_short_roads_eq (m : RawMap) (l : List OriginalRoad)
    (m' : RawMap) (out : List OriginalRoad)
    (h : m.mark_short_roads l = some (m', out)) :
    m' = { m with roads := m.roads.map (markEntry l) } ∧ out = l ∧
      ∀ id ∈ l, id ∈ m.roads.map Prod.fst := by
  unfold RawMap.mark_short_roads at h
  cases hg : markShortRoadsGo m.roads l with
  | none => rw [hg] at h; exact absurd h (by simp)
  | some rs =>
    rw [hg] at h
    obtain ⟨h1, h2⟩ := markShortRoadsGo_eq l m.roads rs hg
    have h3 := Option.some.inj h
    rw [Prod.mk.injEq] at h3
    obtain ⟨h4, h5⟩ := h3
    exact ⟨by rw [← h4, h1], by rw [← h5], h2⟩

theorem mark_short_roads_isSome (m : RawMap) (l : List OriginalRoad)
    (h : ∀ id ∈ l, id ∈ m.roads.map Prod.fst) :
    (m.mark_short_roads l).isSome = true := by
  unfold RawMap.mark_short_roads
  have := markShortRoadsGo_isSome l m.roads h
  cases hg : markShortRoadsGo m.roads l with
  | none => rw [hg] at this; exact absurd this (by simp)
  | some rs => simp

theorem tagRoad_is (r : RawRoad) :
    (tagRoad r).osm_tags.is "junction" "intersection" = true := by
  simp [tagRoad, Tags.is, Tags.get?_insert_self]

/-! ### Membership characterizations of the collection loops -/

theorem collectTaggedGo_eq (m : RawMap) (ca : Bool)
    (ps : List (OriginalRoad × RawRoad)) :
    collectTaggedGo m ca ps =
      (ps.filter (fun p => p.2.osm_tags.is "junction" "intersection" ||
        (ca && distance_heuristic p.1 m))).map Prod.fst := by
  induction ps with
  | nil => rfl
  | cons p rest ih =>
    unfold collectTaggedGo
    by_cases h1 : p.2.osm_tags.is "junction" "intersection" = true
    · rw [List.filter_cons_of_pos (by simp [h1])]
      simp [h1, ih]
    · by_cases h2 : (ca && distance_heuristic p.1 m) = true
      · rw [List.filter_cons_of_pos (by simp [h2])]
        simp [h1, h2, ih]
      · rw [List.filter_cons_of_neg (by simp [h1, h2])]
        simp [h1, h2, ih]

theorem collectTaggedGo_mem (m : RawMap) (ca : Bool)
    (ps : List (OriginalRoad × RawRoad)) (r : OriginalRoad) :
    r ∈ collectTaggedGo m ca ps ↔
      ∃ rd, (r, rd) ∈ ps ∧ (rd.osm_tags.is "junction" "intersection" = true ∨
        (ca && distance_heuristic r m) = true) := by
  rw [collectTaggedGo_eq]
  constructor
  · intro h
    obtain ⟨p, hp, hpr⟩ := List.mem_map.1 h
    obtain ⟨hmem, hcond⟩ := List.mem_filter.1 hp
    refine ⟨p.2, by rw [← hpr]; simpa using hmem, ?_⟩
    rw [← hpr]
    simpa using hcond
  · rintro ⟨rd, hmem, hcond⟩
    apply List.mem_map.2
    refine ⟨(r, rd), List.mem_filter.2 ⟨hmem, by simpa using hcond⟩, rfl⟩

theorem signalClustersGo_mem (m : RawMap) (ps : List (OriginalRoad × RawRoad))
    (res : List OriginalRoad) (h : signalClustersGo m ps = some res) (r : OriginalRoad) :
    r ∈ res ↔ ∃ rd, (r, rd) ∈ ps ∧ signalClusterCheck m r rd = some true := by
  induction ps generalizing res with
  | nil =>
    have : res = [] := by simpa [signalClustersGo] using h.symm
    simp [this]
  | cons p rest ih =>
    unfold signalClustersGo at h
    cases hc : signalClusterCheck m p.1 p.2 with
    | none => rw [hc] at h; exact absurd h (by simp)
    | some b =>
      rw [hc] at h
      cases b with
      | true =>
        cases hg : signalClustersGo m rest with
        | none => rw [hg] at h; exact absurd h (by simp)
        | some res' =>
          rw [hg] at h
          have hres : res = p.1 :: res' := (Option.some.inj h).symm
          subst hres
          constructor
          · intro hr
            rcases List.mem_cons.1 hr with h3 | h3
            · exact ⟨p.2, List.mem_cons.2 (Or.inl (by rw [h3])), by rw [h3]; exact hc⟩
            · obtain ⟨rd, h4, h5⟩ := (ih res' hg).1 h3
              exact ⟨rd, List.mem_cons.2 (Or.inr h4), h5⟩
          · rintro ⟨rd, h4, h5⟩
            rcases List.mem_cons.1 h4 with h6 | h6
            · have : r = p.1 := by
                have := congrArg Prod.fst h6
                simpa using this
              exact List.mem_cons.2 (Or.inl this)
            · exact List.mem_cons.2 (Or.inr ((ih res' hg).2 ⟨rd, h6, h5⟩))
      | false =>
        constructor
        · intro hr
          obtain ⟨rd, h4, h5⟩ := (ih res h).1 hr
          exact ⟨rd, List.mem_cons.2 (Or.inr h4), h5⟩
        · rintro ⟨rd, h4, h5⟩
          rcases List.mem_cons.1 h4 with h6 | h6
          · exfalso
            have hr1 : r = p.1 := by simpa using congrArg Prod.fst h6
            have hr2 : rd = p.2 := by simpa using congrArg Prod.snd h6
            rw [hr1, hr2] at h5
            rw [h5] at hc
            exact absurd (Option.some.inj hc) (by simp)
          · exact (ih res h).2 ⟨rd, h6, h5⟩

theorem dogLegsGo_mem (m : RawMap) (ids : List OriginalRoad)
    (res : List OriginalRoad) (h : dogLegsGo m ids = some res) (r : OriginalRoad) :
    r ∈ res ↔ r ∈ ids ∧ dogLegCheck m r = some true := by
  induction ids generalizing res with
  | nil =>
    have : res = [] := by simpa [dogLegsGo] using h.symm
    simp [this]
  | cons id rest ih =>
    unfold dogLegsGo at h
    cases hc : dogLegCheck m id with
    | none => rw [hc] at h; exact absurd h (by simp)
    | some b =>
      rw [hc] at h
      cases b with
      | true =>
        cases hg : dogLegsGo m rest with
        | none => rw [hg] at h; exact absurd h (by simp)
        | some res' =>
          rw [hg] at h
          have hres : res = id :: res' := (Option.some.inj h).symm
          subst hres
          constructor
          · intro hr
            rcases List.mem_cons.1 hr with h3 | h3
            · exact ⟨List.mem_cons.2 (Or.inl h3), by rw [h3]; exact hc⟩
            · obtain ⟨h4, h5⟩ := (ih res' hg).1 h3
              exact ⟨List.mem_cons.2 (Or.inr h4), h5⟩
          · rintro ⟨h4, h5⟩
            rcases List.mem_cons.1 h4 with h6 | h6
            · exact List.mem_cons.2 (Or.inl h6)
            · exact List.mem_cons.2 (Or.inr ((ih res' hg).2 ⟨h6, h5⟩))
      | false =>
        constructor
        · intro hr
          obtain ⟨h4, h5⟩ := (ih res h).1 hr
          exact ⟨List.mem_cons.2 (Or.inr h4), h5⟩
        · rintro ⟨h4, h5⟩
          rcases List.mem_cons.1 h4 with h6 | h6
          · exfalso
            rw [h6] at h5
            rw [h5] at hc
            exact absurd (Option.some.inj hc) (by simp)
          · exact (ih res h).2 ⟨h6, h5⟩

theorem dogLegConnsCheck_true_iff (m : RawMap) (l : List OriginalRoad) :
    dogLegConnsCheck m l = some true ↔ ∀ c ∈ l, dogLegConnCheck m c = some true := by
  induction l with
  | nil => simp [dogLegConnsCheck]
  | cons c rest ih =>
    unfold dogLegConnsCheck
    cases hc : dogLegConnCheck m c with
    | none =>
      constructor
      · intro h; exact absurd h (by simp)
      · intro h
        exact absurd (h c (List.mem_cons_self c rest)) (by simp [hc])
    | some b =>
      cases b with
      | true =>
        rw [ih]
        constructor
        · intro h x hx
          rcases List.mem_cons.1 hx with h2 | h2
          · rw [h2]; exact hc
          · exact h x h2
        · intro h x hx
          exact h x (List.mem_cons_of_mem c hx)
      | false =>
        constructor
        · intro h; exact absurd (Option.some.inj h) (by simp)
        · intro h
          have := h c (List.mem_cons_self c rest)
          rw [hc] at this
          exact absurd (Option.some.inj this) (by simp)

theorem lookupRoad_marked (m : RawMap) (l : List OriginalRoad) (id : OriginalRoad) :
    lookupRoad { m with roads := m.roads.map (markEntry l) } id =
      (lookupRoad m id).map (fun rd => if id ∈ l then tagRoad rd else rd) := by
  unfold lookupRoad
  simp only
  rw [List.find?_map]
  have hpred : ((fun (p : OriginalRoad × RawRoad) => p.1 == id) ∘ (markEntry l)) =
      fun (p : OriginalRoad × RawRoad) => p.1 == id := by
    funext p
    simp [Function.comp, markEntry_fst]
  rw [hpred]
  cases hf : m.roads.find? (fun p => p.1 == id) with
  | none => rfl
  | some p =>
    have hp1 : p.1 = id := by simpa using List.find?_some hf
    by_cases hmem : id ∈ l
    · simp [markEntry, hp1, hmem]
    · simp [markEntry, hp1, hmem]

/-! ### Claims -/

/-- C5: if the distance heuristic flags a road then its trimmed geometry is
defined and strictly shorter than 5.0 meters; if the trimmed geometry is
unavailable the road is not flagged (fail-open). -/
theorem distance_heuristic_sound (id : OriginalRoad) (m : RawMap) :
    (distance_heuristic id m = true →
      ∃ len, m.trimmed_road_geometry id = some len ∧ len < (5 : ℚ)) ∧
    (m.trimmed_road_geometry id = none → distance_heuristic id m = false) := by
  constructor
  · intro h
    unfold distance_heuristic at h
    cases ht : m.trimmed_road_geometry id with
    | none => rw [ht] at h; exact absurd h (by simp)
    | some len =>
      rw [ht] at h
      exact ⟨len, rfl, by simpa using h⟩
  · intro h
    unfold distance_heuristic
    rw [h]

/-- A road identifier shared by the concrete witness maps below. -/
def wRoadA : OriginalRoad := ⟨1, 10, 11⟩

/-- A concrete map whose one road has trimmed length 3. -/
def wMapShort : RawMap :=
  { roads := [(wRoadA, ⟨[], some 3, true⟩)]
    intersections := [(10, ⟨IntersectionType.StopSign⟩), (11, ⟨IntersectionType.StopSign⟩)]
    trimmed_length := fun r => if r = wRoadA then some 3 else none
    name_is_montlake := false }

theorem distance_heuristic_sound_witness :
    (∃ len, wMapShort.trimmed_road_geometry wRoadA = some len ∧ len < (5 : ℚ)) ∧
      distance_heuristic ⟨2, 10, 11⟩ wMapShort = false :=
  ⟨(distance_heuristic_sound wRoadA wMapShort).1 (by decide),
   (distance_heuristic_sound ⟨2, 10, 11⟩ wMapShort).2 (by decide)⟩

/-- C8: a missing or unparseable override file behaves exactly like an empty
override list: same returned value (same flagged list and same resulting
graph), and no error is signalled. -/
theorem missing_overrides_like_empty (m : RawMap) (ca : Bool) :
    find_short_roads m ca none = find_short_roads m ca (some []) := by
  unfold find_short_roads
  simp

/-- C7: every override identifier is contained in the final result of
`find_short_roads`, and the overrides are appended after the contribution of
all other heuristics. -/
theorem overrides_subset_final (m : RawMap) (ca : Bool) (ways : List OriginalRoad)
    (m' : RawMap) (res : List OriginalRoad)
    (h : find_short_roads m ca (some ways) = some (m', res)) :
    res = collectTagged m ca ++ ways ∧ ∀ w ∈ ways, w ∈ res := by
  unfold find_short_roads at h
  obtain ⟨_, h2, _⟩ := mark_short_roads_eq m _ m' res h
  refine ⟨h2, ?_⟩
  intro w hw
  rw [h2]
  exact List.mem_append_right _ hw

/-- A concrete map whose one road qualifies under no heuristic (no tags, no
trimmed geometry). -/
def wMapPlain : RawMap :=
  { roads := [(wRoadA, ⟨[], none, true⟩)]
    intersections := []
    trimmed_length := fun _ => none
    name_is_montlake := false }

/-- `wMapPlain` after its single road got the merge-candidate tag. -/
def wMapPlainAfter : RawMap :=
  { wMapPlain with roads := [(wRoadA, ⟨[("junction", "intersection")], none, true⟩)] }

theorem overrides_subset_final_witness :
    ([wRoadA] : List OriginalRoad) = collectTagged wMapPlain false ++ [wRoadA] ∧
      ∀ w ∈ ([wRoadA] : List OriginalRoad), w ∈ ([wRoadA] : List OriginalRoad) :=
  overrides_subset_final wMapPlain false [wRoadA] wMapPlainAfter [wRoadA] (by rfl)

/-- C3: the commit is all-or-nothing: whenever `mark_short_roads` produces a
resulting graph, that graph has the merge-candidate tag on every flagged
road (and the flagged list is returned unchanged); when a lookup fails the
operation aborts and produces no resulting graph at all, so no partially
tagged graph is ever observable. -/
theorem mark_short_roads_atomic (m : RawMap) (l : List OriginalRoad)
    (m' : RawMap) (out : List OriginalRoad)
    (h : m.mark_short_roads l = some (m', out)) :
    out = l ∧ ∀ id ∈ l, ∃ rd, lookupRoad m' id = some rd ∧
      rd.osm_tags.is "junction" "intersection" = true := by
  obtain ⟨h1, h2, h3⟩ := mark_short_roads_eq m l m' out h
  refine ⟨h2, ?_⟩
  intro id hid
  have hkey := h3 id hid
  obtain ⟨p, hp, hpe⟩ := List.mem_map.1 hkey
  have hfind : (m.roads.find? (fun q => q.1 == id)).isSome := by
    rw [List.find?_isSome]
    exact ⟨p, hp, by simp [hpe]⟩
  cases hf : m.roads.find? (fun q => q.1 == id) with
  | none => rw [hf] at hfind; exact absurd hfind (by simp)
  | some q =>
    have hlookup : lookupRoad m id = some q.2 := by
      unfold lookupRoad
      rw [hf]
      rfl
    refine ⟨tagRoad q.2, ?_, tagRoad_is q.2⟩
    rw [h1, lookupRoad_marked, hlookup]
    simp [hid]

theorem mark_short_roads_atomic_witness :
    ([wRoadA] : List OriginalRoad) = [wRoadA] ∧
      ∀ id ∈ ([wRoadA] : List OriginalRoad), ∃ rd, lookupRoad wMapPlainAfter id = some rd ∧
        rd.osm_tags.is "junction" "intersection" = true :=
  mark_short_roads_atomic wMapPlain [wRoadA] wMapPlainAfter [wRoadA] (by rfl)

/-- The flagging condition of the signal-cluster pass, as the claim states
it: not already tagged, both endpoint intersections found and non-border, at
least one a traffic signal, geometry computed, length at most 20. -/
def signalClusterSpec (m : RawMap) (r : OriginalRoad) (rd : RawRoad) : Prop :=
  rd.osm_tags.is "junction" "intersection" = false ∧
  ∃ j1 j2, lookupIntersection m r.i1 = some j1 ∧ lookupIntersection m r.i2 = some j2 ∧
    j1.is_border = false ∧ j2.is_border = false ∧
    (j1.intersection_type = IntersectionType.TrafficSignal ∨
      j2.intersection_type = IntersectionType.TrafficSignal) ∧
    ∃ len, rd.geometry_length = some len ∧ len ≤ (20 : ℚ)

theorem signalClusterCheck_true_iff (m : RawMap) (r : OriginalRoad) (rd : RawRoad) :
    signalClusterCheck m r rd = some true ↔ signalClusterSpec m r rd := by
  unfold signalClusterCheck signalClusterSpec
  by_cases htag : rd.osm_tags.is "junction" "intersection" = true
  · simp [htag]
  · rw [Bool.not_eq_true] at htag
    cases h1 : lookupIntersection m r.i1 with
    | none => simp [htag, h1]
    | some j1 =>
      cases h2 : lookupIntersection m r.i2 with
      | none => simp [htag, h1, h2]
      | some j2 =>
        by_cases hb : (j1.is_border || j2.is_border) = true
        · rcases Bool.or_eq_true_iff.1 hb with hb1 | hb1 <;>
            simp [htag, h1, h2, hb, hb1]
        · rw [Bool.not_eq_true, Bool.or_eq_false_iff] at hb
          obtain ⟨hb1, hb2⟩ := hb
        
          by_cases hsig : (j1.intersection_type != IntersectionType.TrafficSignal &&
              j2.intersection_type != IntersectionType.TrafficSignal) = true
          · rw [Bool.and_eq_true] at hsig
            obtain ⟨hs1, hs2⟩ := hsig
            rw [bne_iff_ne] at hs1 hs2
            simp [htag, h1, h2, hb1, hb2, hs1, hs2]
          · rw [Bool.not_eq_true, Bool.and_eq_false_iff] at hsig
            have hsig2 : j1.intersection_type = IntersectionType.TrafficSignal ∨
                j2.intersection_type = IntersectionType.TrafficSignal := by
              rcases hsig with hs | hs
              · left; simpa using hs
              · right; simpa using hs
            have hcond : ¬(¬j1.intersection_type = IntersectionType.TrafficSignal ∧
                ¬j2.intersection_type = IntersectionType.TrafficSignal) := by tauto
            cases hlen : rd.geometry_length with
            | none => simp [htag, h1, h2, hb1, hb2, hlen, hcond, hsig2]
            | some len => simp [htag, h1, h2, hb1, hb2, hlen, hcond, hsig2]

/-- C2: the signal-cluster pass flags exactly the roads that are not already
tagged `junction=intersection`, have two non-border endpoint intersections
of which at least one is a traffic signal, and whose geometry computes to a
length of at most 20 meters. -/
theorem find_traffic_signal_clusters_mem_iff (m m' : RawMap)
    (res : List OriginalRoad) (r : OriginalRoad)
    (h : m.find_traffic_signal_clusters = some (m', res)) :
    r ∈ res ↔ ∃ rd, (r, rd) ∈ m.roads ∧ signalClusterSpec m r rd := by
  unfold RawMap.find_traffic_signal_clusters at h
  cases hg : signalClustersGo m m.roads with
  | none => rw [hg] at h; exact absurd h (by simp)
  | some results =>
    rw [hg] at h
    obtain ⟨h1, h2, h3⟩ := mark_short_roads_eq m results m' res h
    rw [h2, signalClustersGo_mem m m.roads results hg r]
    constructor
    · rintro ⟨rd, hmem, hck⟩
      exact ⟨rd, hmem, (signalClusterCheck_true_iff m r rd).1 hck⟩
    · rintro ⟨rd, hmem, hspec⟩
      exact ⟨rd, hmem, (signalClusterCheck_true_iff m r rd).2 hspec⟩

/-- A second road identifier between the same endpoints. -/
def wRoadB : OriginalRoad := ⟨2, 10, 11⟩

/-- A concrete map: a 15-unit road and a 25-unit road, both between a
traffic-signal intersection and a plain (stop-sign) intersection. -/
def wMapSignal : RawMap :=
  { roads := [(wRoadA, ⟨[], some 15, true⟩), (wRoadB, ⟨[], some 25, true⟩)]
    intersections := [(10, ⟨IntersectionType.TrafficSignal⟩), (11, ⟨IntersectionType.StopSign⟩)]
    trimmed_length := fun _ => none
    name_is_montlake := false }

/-- `wMapSignal` after the 15-unit road got the merge-candidate tag. -/
def wMapSignalAfter : RawMap :=
  { wMapSignal with roads :=
      [(wRoadA, ⟨[("junction", "intersection")], some 15, true⟩),
       (wRoadB, ⟨[], some 25, true⟩)] }

theorem find_traffic_signal_clusters_mem_iff_witness :
    (wRoadA ∈ ([wRoadA] : List OriginalRoad) ↔
      ∃ rd, (wRoadA, rd) ∈ wMapSignal.roads ∧ signalClusterSpec wMapSignal wRoadA rd) ∧
    (wRoadB ∈ ([wRoadA] : List OriginalRoad) ↔
      ∃ rd, (wRoadB, rd) ∈ wMapSignal.roads ∧ signalClusterSpec wMapSignal wRoadB rd) :=
  ⟨find_traffic_signal_clusters_mem_iff wMapSignal wMapSignalAfter [wRoadA] wRoadA (by rfl),
   find_traffic_signal_clusters_mem_iff wMapSignal wMapSignalAfter [wRoadA] wRoadB (by rfl)⟩

theorem dogLegConnCheck_true_iff (m : RawMap) (c : OriginalRoad) :
    dogLegConnCheck m c = some true ↔
      (∃ rd, lookupRoad m c = some rd ∧ rd.is_driveable = true) ∧
      (∃ j1, lookupIntersection m c.i1 = some j1 ∧ j1.is_border = false) ∧
      (∃ j2, lookupIntersection m c.i2 = some j2 ∧ j2.is_border = false) := by
  unfold dogLegConnCheck
  cases hr : lookupRoad m c with
  | none => simp [hr]
  | some rd =>
    by_cases hd : rd.is_driveable = true
    · cases h1 : lookupIntersection m c.i1 with
      | none => simp [hr, hd, h1]
      | some j1 =>
        by_cases hb1 : j1.is_border = true
        · simp [hr, hd, h1, hb1]
        · rw [Bool.not_eq_true] at hb1
          cases h2 : lookupIntersection m c.i2 with
          | none => simp [hr, hd, h1, hb1, h2]
          | some j2 =>
            by_cases hb2 : j2.is_border = true
            · simp [hr, hd, h1, hb1, hb2]
            · rw [Bool.not_eq_true] at hb2
              simp [hr, hd, h1, hb1, hb2]
    · rw [Bool.not_eq_true] at hd
      simp [hr, hd]

/-- The flagging condition of the dog-leg pass, as the claim states it:
trimmed geometry available with length at most 5, and at each endpoint
exactly 3 incident roads, all driveable, none touching a border
intersection. -/
def dogLegSpec (m : RawMap) (r : OriginalRoad) : Prop :=
  (∃ len, m.trimmed_road_geometry r = some len ∧ len ≤ (5 : ℚ)) ∧
  ∀ i ∈ [r.i1, r.i2],
    (m.roads_per_intersection i).length = 3 ∧
    ∀ c ∈ m.roads_per_intersection i,
      (∃ rd, lookupRoad m c = some rd ∧ rd.is_driveable = true) ∧
      (∃ j1, lookupIntersection m c.i1 = some j1 ∧ j1.is_border = false) ∧
      (∃ j2, lookupIntersection m c.i2 = some j2 ∧ j2.is_border = false)

theorem dogLegEndpointCheck_true_iff (m : RawMap) (i : Nat) :
    dogLegEndpointCheck m i = some true ↔
      (m.roads_per_intersection i).length = 3 ∧
      ∀ c ∈ m.roads_per_intersection i,
        (∃ rd, lookupRoad m c = some rd ∧ rd.is_driveable = true) ∧
        (∃ j1, lookupIntersection m c.i1 = some j1 ∧ j1.is_border = false) ∧
        (∃ j2, lookupIntersection m c.i2 = some j2 ∧ j2.is_border = false) := by
  unfold dogLegEndpointCheck
  by_cases hlen : (m.roads_per_intersection i).length = 3
  · rw [if_neg (by simp [hlen])]
    rw [dogLegConnsCheck_true_iff]
    constructor
    · intro h
      exact ⟨hlen, fun c hc => (dogLegConnCheck_true_iff m c).1 (h c hc)⟩
    · rintro ⟨_, h⟩ c hc
      exact (dogLegConnCheck_true_iff m c).2 (h c hc)
  · rw [if_pos (by simp [hlen])]
    simp [hlen]

theorem dogLegCheck_true_iff (m : RawMap) (r : OriginalRoad) :
    dogLegCheck m r = some true ↔ dogLegSpec m r := by
  cases ht : m.trimmed_road_geometry r with
  | none => simp [dogLegCheck, dogLegSpec, ht]
  | some len =>
    have hred : dogLegCheck m r =
        (if decide (len > (5 : ℚ)) = true then some false
         else
           match dogLegEndpointCheck m r.i1 with
           | none => none
           | some false => some false
           | some true =>
             match dogLegEndpointCheck m r.i2 with
             | none => none
             | some false => some false
             | some true => some true) := by
      unfold dogLegCheck
      rw [ht]
    rw [hred]
    unfold dogLegSpec
    by_cases hlen : len > (5 : ℚ)
    · constructor
      · intro h
        rw [if_pos (by simpa using hlen)] at h
        exact absurd (Option.some.inj h) (by simp)
      · rintro ⟨⟨len', hsome, hle⟩, _⟩
        exfalso
        have hll : len = len' := Option.some.inj (ht ▸ hsome)
        rw [← hll] at hle
        exact absurd hle (not_le.2 hlen)
    · rw [if_neg (by simpa using hlen)]
      have hle : len ≤ (5 : ℚ) := not_lt.1 hlen
      cases he1 : dogLegEndpointCheck m r.i1 with
      | none =>
        constructor
        · intro h
          exact absurd h (by simp)
        · rintro ⟨_, hall⟩
          exfalso
          have h1 := (dogLegEndpointCheck_true_iff m r.i1).2 (hall r.i1 (by simp))
          rw [he1] at h1
          exact absurd h1 (by simp)
      | some b1 =>
        cases b1 with
        | false =>
          constructor
          · intro h
            exact absurd (Option.some.inj h) (by simp)
          · rintro ⟨_, hall⟩
            exfalso
            have h1 := (dogLegEndpointCheck_true_iff m r.i1).2 (hall r.i1 (by simp))
            rw [he1] at h1
            exact absurd (Option.some.inj h1) (by simp)
        | true =>
          cases he2 : dogLegEndpointCheck m r.i2 with
          | none =>
            constructor
            · intro h
              exact absurd h (by simp)
            · rintro ⟨_, hall⟩
              exfalso
              have h2 := (dogLegEndpointCheck_true_iff m r.i2).2 (hall r.i2 (by simp))
              rw [he2] at h2
              exact absurd h2 (by simp)
          | some b2 =>
            cases b2 with
            | false =>
              constructor
              · intro h
                exact absurd (Option.some.inj h) (by simp)
              · rintro ⟨_, hall⟩
                exfalso
                have h2 := (dogLegEndpointCheck_true_iff m r.i2).2 (hall r.i2 (by simp))
                rw [he2] at h2
                exact absurd (Option.some.inj h2) (by simp)
            | true =>
              constructor
              · intro _
                refine ⟨⟨len, ht, hle⟩, ?_⟩
                intro i hi
                rcases List.mem_cons.1 hi with hi1 | hi1
                · rw [hi1]
                  exact (dogLegEndpointCheck_true_iff m r.i1).1 he1
                · have hi2 : i = r.i2 := by simpa using hi1
                  rw [hi2]
                  exact (dogLegEndpointCheck_true_iff m r.i2).1 he2
              · intro _
                rfl

/-- C1: the dog-leg pass flags exactly the roads whose trimmed geometry is
available with length at most 5 meters and whose two endpoint intersections
each have exactly 3 incident roads, all driveable and none touching a border
intersection. -/
theorem find_dog_legs_mem_iff (m m' : RawMap) (res : List OriginalRoad)
    (r : OriginalRoad) (h : m.find_dog_legs = some (m', res)) :
    r ∈ res ↔ r ∈ m.roads.map Prod.fst ∧ dogLegSpec m r := by
  unfold RawMap.find_dog_legs at h
  cases hg : dogLegsGo m (m.roads.map Prod.fst) with
  | none => rw [hg] at h; exact absurd h (by simp)
  | some results =>
    rw [hg] at h
    obtain ⟨_, h2, _⟩ := mark_short_roads_eq m results m' res h
    rw [h2, dogLegsGo_mem m _ results hg r]
    constructor
    · rintro ⟨hmem, hck⟩
      exact ⟨hmem, (dogLegCheck_true_iff m r).1 hck⟩
    · rintro ⟨hmem, hspec⟩
      exact ⟨hmem, (dogLegCheck_true_iff m r).2 hspec⟩

/-- A concrete dog-leg configuration: a 4-unit road between two 3-way
intersections of driveable, border-free roads. -/
def wMapDogLeg : RawMap :=
  { roads := [(wRoadA, ⟨[], none, true⟩),
      (⟨2, 20, 10⟩, ⟨[], none, true⟩), (⟨3, 21, 10⟩, ⟨[], none, true⟩),
      (⟨4, 11, 30⟩, ⟨[], none, true⟩), (⟨5, 11, 31⟩, ⟨[], none, true⟩)]
    intersections := [(10, ⟨IntersectionType.StopSign⟩), (11, ⟨IntersectionType.StopSign⟩),
      (20, ⟨IntersectionType.StopSign⟩), (21, ⟨IntersectionType.StopSign⟩),
      (30, ⟨IntersectionType.StopSign⟩), (31, ⟨IntersectionType.StopSign⟩)]
    trimmed_length := fun r => if r = wRoadA then some 4 else none
    name_is_montlake := false }

/-- `wMapDogLeg` after its central short road got the merge-candidate tag. -/
def wMapDogLegAfter : RawMap :=
  { wMapDogLeg with roads := [(wRoadA, ⟨[("junction", "intersection")], none, true⟩),
      (⟨2, 20, 10⟩, ⟨[], none, true⟩), (⟨3, 21, 10⟩, ⟨[], none, true⟩),
      (⟨4, 11, 30⟩, ⟨[], none, true⟩), (⟨5, 11, 31⟩, ⟨[], none, true⟩)] }

theorem find_dog_legs_mem_iff_witness :
    wRoadA ∈ ([wRoadA] : List OriginalRoad) ↔
      wRoadA ∈ wMapDogLeg.roads.map Prod.fst ∧ dogLegSpec wMapDogLeg wRoadA :=
  find_dog_legs_mem_iff wMapDogLeg wMapDogLegAfter [wRoadA] wRoadA (by rfl)

/-- C6: a road one of whose endpoint intersections is a border is never
flagged, neither by the signal-cluster pass nor by the dog-leg pass. -/
theorem border_roads_never_flagged (m : RawMap) (r : OriginalRoad)
    (hb : (∃ j, lookupIntersection m r.i1 = some j ∧ j.is_border = true) ∨
          (∃ j, lookupIntersection m r.i2 = some j ∧ j.is_border = true)) :
    (∀ m' res, m.find_traffic_signal_clusters = some (m', res) → r ∉ res) ∧
    (∀ m' res, m.find_dog_legs = some (m', res) → r ∉ res) := by
  constructor
  · intro m' res h hr
    unfold RawMap.find_traffic_signal_clusters at h
    cases hg : signalClustersGo m m.roads with
    | none => rw [hg] at h; exact absurd h (by simp)
    | some results =>
      rw [hg] at h
      obtain ⟨_, h2, _⟩ := mark_short_roads_eq m results m' res h
      rw [h2] at hr
      obtain ⟨rd, _, hck⟩ := (signalClustersGo_mem m m.roads results hg r).1 hr
      obtain ⟨_, j1, j2, hl1, hl2, hb1, hb2, _, _⟩ :=
        (signalClusterCheck_true_iff m r rd).1 hck
      rcases hb with ⟨j, hj, hjb⟩ | ⟨j, hj, hjb⟩
      · rw [hl1] at hj
        rw [← Option.some.inj hj] at hjb
        rw [hb1] at hjb
        exact absurd hjb (by simp)
      · rw [hl2] at hj
        rw [← Option.some.inj hj] at hjb
        rw [hb2] at hjb
        exact absurd hjb (by simp)
  · intro m' res h hr
    unfold RawMap.find_dog_legs at h
    cases hg : dogLegsGo m (m.roads.map Prod.fst) with
    | none => rw [hg] at h; exact absurd h (by simp)
    | some results =>
      rw [hg] at h
      obtain ⟨_, h2, _⟩ := mark_short_roads_eq m results m' res h
      rw [h2] at hr
      obtain ⟨hkeys, hck⟩ := (dogLegsGo_mem m _ results hg r).1 hr
      obtain ⟨_, hall⟩ := (dogLegCheck_true_iff m r).1 hck
      have hrmem : r ∈ m.roads_per_intersection r.i1 := by
        unfold RawMap.roads_per_intersection
        exact List.mem_filter.2 ⟨hkeys, by simp⟩
      obtain ⟨_, ⟨j1, hj1, hjb1⟩, ⟨j2, hj2, hjb2⟩⟩ :=
        (hall r.i1 (by simp)).2 r hrmem
      rcases hb with ⟨j, hj, hjb⟩ | ⟨j, hj, hjb⟩
      · rw [hj1] at hj
        rw [← Option.some.inj hj] at hjb
        rw [hjb1] at hjb
        exact absurd hjb (by simp)
      · rw [hj2] at hj
        rw [← Option.some.inj hj] at hjb
        rw [hjb2] at hjb
        exact absurd hjb (by simp)

/-- A concrete map whose one road touches a border intersection. -/
def wMapBorder : RawMap :=
  { roads := [(wRoadA, ⟨[], some 15, true⟩)]
    intersections := [(10, ⟨IntersectionType.Border⟩), (11, ⟨IntersectionType.StopSign⟩)]
    trimmed_length := fun _ => some 4
    name_is_montlake := false }

theorem border_roads_never_flagged_witness :
    wRoadA ∉ ([] : List OriginalRoad) ∧ wRoadA ∉ ([] : List OriginalRoad) :=
  ⟨(border_roads_never_flagged wMapBorder wRoadA
      (Or.inl ⟨⟨IntersectionType.Border⟩, by rfl, by rfl⟩)).1 wMapBorder [] (by rfl),
   (border_roads_never_flagged wMapBorder wRoadA
      (Or.inl ⟨⟨IntersectionType.Border⟩, by rfl, by rfl⟩)).2 wMapBorder [] (by rfl)⟩

/-- The frame condition: compared with `m`, the graph `m'` differs only in
that every road of `res` carries the merge-candidate tag
`junction=intersection`; the intersections, the external accessors, the road
key list (no deletion, same order), every non-tag road field, and every
other tag key are untouched, and roads outside `res` are untouched
entirely. -/
def FrameOnlyTags (m m' : RawMap) (res : List OriginalRoad) : Prop :=
  m'.intersections = m.intersections ∧
  m'.trimmed_length = m.trimmed_length ∧
  m'.name_is_montlake = m.name_is_montlake ∧
  m'.roads.map Prod.fst = m.roads.map Prod.fst ∧
  List.Forall₂ (fun p q =>
    q.1 = p.1 ∧
    q.2.geometry_length = p.2.geometry_length ∧
    q.2.is_driveable = p.2.is_driveable ∧
    (p.1 ∉ res → q = p) ∧
    (p.1 ∈ res → q.2.osm_tags.is "junction" "intersection" = true ∧
      ∀ k, k ≠ "junction" → q.2.osm_tags.get? k = p.2.osm_tags.get? k))
    m.roads m'.roads

theorem frame_marked (m : RawMap) (res : List OriginalRoad) :
    FrameOnlyTags m { m with roads := m.roads.map (markEntry res) } res := by
  refine ⟨rfl, rfl, rfl, ?_, ?_⟩
  · rw [List.map_map]
    apply List.map_congr_left
    intro p _
    exact markEntry_fst res p
  · rw [List.forall₂_map_right_iff]
    rw [List.forall₂_same]
    intro p _
    by_cases hmem : p.1 ∈ res
    · refine ⟨markEntry_fst res p, ?_, ?_, ?_, ?_⟩
      · simp [markEntry, hmem, tagRoad]
      · simp [markEntry, hmem, tagRoad]
      · intro hn
        exact absurd hmem hn
      · intro _
        constructor
        · simp only [markEntry, hmem, if_pos]
          exact tagRoad_is p.2
        · intro k hk
          simp only [markEntry, hmem, if_pos]
          exact Tags.get?_insert_ne p.2.osm_tags "junction" "intersection" k hk
    · refine ⟨markEntry_fst res p, ?_, ?_, ?_, ?_⟩
      · simp [markEntry, hmem]
      · simp [markEntry, hmem]
      · intro _
        simp [markEntry, hmem]
      · intro hmem2
        exact absurd hmem2 hmem

/-- C9: every one of the three entry points mutates the graph only by
setting the merge-candidate tag on exactly the roads of the returned flagged
list: no road is added or deleted, no intersection or accessor changes, and
every other field and tag of every road is unchanged. -/
theorem frame_only_tags (m : RawMap) (ca : Bool) (ov : Option (List OriginalRoad)) :
    (∀ m' res, find_short_roads m ca ov = some (m', res) → FrameOnlyTags m m' res) ∧
    (∀ m' res, m.find_traffic_signal_clusters = some (m', res) → FrameOnlyTags m m' res) ∧
    (∀ m' res, m.find_dog_legs = some (m', res) → FrameOnlyTags m m' res) := by
  refine ⟨?_, ?_, ?_⟩
  · intro m' res h
    unfold find_short_roads at h
    obtain ⟨h1, h2, _⟩ := mark_short_roads_eq m _ m' res h
    rw [h1, h2]
    exact frame_marked m _
  · intro m' res h
    unfold RawMap.find_traffic_signal_clusters at h
    cases hg : signalClustersGo m m.roads with
    | none => rw [hg] at h; exact absurd h (by simp)
    | some results =>
      rw [hg] at h
      obtain ⟨h1, h2, _⟩ := mark_short_roads_eq m results m' res h
      rw [h1, h2]
      exact frame_marked m results
  · intro m' res h
    unfold RawMap.find_dog_legs at h
    cases hg : dogLegsGo m (m.roads.map Prod.fst) with
    | none => rw [hg] at h; exact absurd h (by simp)
    | some results =>
      rw [hg] at h
      obtain ⟨h1, h2, _⟩ := mark_short_roads_eq m results m' res h
      rw [h1, h2]
      exact frame_marked m results

theorem frame_only_tags_witness :
    FrameOnlyTags wMapPlain wMapPlainAfter [wRoadA] ∧
    FrameOnlyTags wMapSignal wMapSignalAfter [wRoadA] ∧
    FrameOnlyTags wMapDogLeg wMapDogLegAfter [wRoadA] :=
  ⟨(frame_only_tags wMapPlain false (some [wRoadA])).1 wMapPlainAfter [wRoadA] (by rfl),
   (frame_only_tags wMapSignal false none).2.1 wMapSignalAfter [wRoadA] (by rfl),
   (frame_only_tags wMapDogLeg false none).2.2 wMapDogLegAfter [wRoadA] (by rfl)⟩

/-! ### Totality lemmas -/

theorem lookupRoad_isSome (m : RawMap) (id : OriginalRoad)
    (h : id ∈ m.roads.map Prod.fst) : (lookupRoad m id).isSome = true := by
  unfold lookupRoad
  obtain ⟨p, hp, hpe⟩ := List.mem_map.1 h
  have hf : (m.roads.find? (fun q => q.1 == id)).isSome :=
    List.find?_isSome.2 ⟨p, hp, by simp [hpe]⟩
  simpa using hf

theorem roads_per_intersection_subset (m : RawMap) (i : Nat) :
    ∀ c ∈ m.roads_per_intersection i, c ∈ m.roads.map Prod.fst := by
  intro c hc
  exact (List.mem_filter.1 hc).1

theorem signalClusterCheck_isSome (m : RawMap) (id : OriginalRoad) (road : RawRoad)
    (j1 j2 : Intersection) (hl1 : lookupIntersection m id.i1 = some j1)
    (hl2 : lookupIntersection m id.i2 = some j2) :
    (signalClusterCheck m id road).isSome = true := by
  unfold signalClusterCheck
  rw [hl1, hl2]
  by_cases htag : road.osm_tags.is "junction" "intersection" = true
  · rw [if_pos htag]
    rfl
  · rw [if_neg htag]
    show (if j1.is_border || j2.is_border then (some false : Option Bool)
      else if j1.intersection_type != IntersectionType.TrafficSignal &&
          j2.intersection_type != IntersectionType.TrafficSignal then some false
      else match road.geometry_length with
        | some len => some (decide (len ≤ (20 : ℚ)))
        | none => some false).isSome = true
    split
    · rfl
    · split
      · rfl
      · cases road.geometry_length <;> rfl

theorem signalClustersGo_isSome (m : RawMap) (ps : List (OriginalRoad × RawRoad))
    (h : ∀ p ∈ ps, (signalClusterCheck m p.1 p.2).isSome = true) :
    (signalClustersGo m ps).isSome = true := by
  induction ps with
  | nil => rfl
  | cons p rest ih =>
    unfold signalClustersGo
    cases hc : signalClusterCheck m p.1 p.2 with
    | none =>
      have := h p (List.mem_cons_self p rest)
      rw [hc] at this
      exact absurd this (by simp)
    | some b =>
      have hrest := ih (fun q hq => h q (List.mem_cons_of_mem p hq))
      cases b with
      | true =>
        cases hg : signalClustersGo m rest with
        | none => rw [hg] at hrest; exact absurd hrest (by simp)
        | some res => simp
      | false => exact hrest

theorem dogLegConnCheck_isSome (m : RawMap) (c : OriginalRoad) (rd : RawRoad)
    (hr : lookupRoad m c = some rd) (j1 j2 : Intersection)
    (h1 : lookupIntersection m c.i1 = some j1)
    (h2 : lookupIntersection m c.i2 = some j2) :
    (dogLegConnCheck m c).isSome = true := by
  unfold dogLegConnCheck
  rw [hr, h1, h2]
  show (if !rd.is_driveable then (some false : Option Bool)
    else if j1.is_border then some false
    else if j2.is_border then some false
    else some true).isSome = true
  split
  · rfl
  · split
    · rfl
    · split
      · rfl
      · rfl

theorem dogLegConnsCheck_isSome (m : RawMap) (l : List OriginalRoad)
    (h : ∀ c ∈ l, (dogLegConnCheck m c).isSome = true) :
    (dogLegConnsCheck m l).isSome = true := by
  induction l with
  | nil => rfl
  | cons c rest ih =>
    unfold dogLegConnsCheck
    cases hc : dogLegConnCheck m c with
    | none =>
      have := h c (List.mem_cons_self c rest)
      rw [hc] at this
      exact absurd this (by simp)
    | some b =>
      cases b with
      | false => rfl
      | true => exact ih (fun x hx => h x (List.mem_cons_of_mem c hx))

theorem dogLegEndpointCheck_isSome (m : RawMap) (i : Nat)
    (h : (dogLegConnsCheck m (m.roads_per_intersection i)).isSome = true) :
    (dogLegEndpointCheck m i).isSome = true := by
  unfold dogLegEndpointCheck
  show (if ((m.roads_per_intersection i).length != 3) = true then (some false : Option Bool)
    else dogLegConnsCheck m (m.roads_per_intersection i)).isSome = true
  split
  · rfl
  · exact h

theorem dogLegCheck_isSome (m : RawMap) (id : OriginalRoad)
    (hi1 : (dogLegEndpointCheck m id.i1).isSome = true)
    (hi2 : (dogLegEndpointCheck m id.i2).isSome = true) :
    (dogLegCheck m id).isSome = true := by
  unfold dogLegCheck
  cases ht : m.trimmed_road_geometry id with
  | none => rfl
  | some len =>
    show (if decide (len > (5 : ℚ)) = true then (some false : Option Bool)
      else match dogLegEndpointCheck m id.i1 with
        | none => none
        | some false => some false
        | some true =>
          match dogLegEndpointCheck m id.i2 with
          | none => none
          | some false => some false
          | some true => some true).isSome = true
    split
    · rfl
    · cases he1 : dogLegEndpointCheck m id.i1 with
      | none => rw [he1] at hi1; exact absurd hi1 (by simp)
      | some b1 =>
        cases b1 with
        | false => rfl
        | true =>
          cases he2 : dogLegEndpointCheck m id.i2 with
          | none => rw [he2] at hi2; exact absurd hi2 (by simp)
          | some b2 => cases b2 <;> rfl

theorem dogLegsGo_isSome (m : RawMap) (ids : List OriginalRoad)
    (h : ∀ id ∈ ids, (dogLegCheck m id).isSome = true) :
    (dogLegsGo m ids).isSome = true := by
  induction ids with
  | nil => rfl
  | cons id rest ih =>
    unfold dogLegsGo
    cases hc : dogLegCheck m id with
    | none =>
      have := h id (List.mem_cons_self id rest)
      rw [hc] at this
      exact absurd this (by simp)
    | some b =>
      have hrest := ih (fun x hx => h x (List.mem_cons_of_mem id hx))
      cases b with
      | true =>
        cases hg : dogLegsGo m rest with
        | none => rw [hg] at hrest; exact absurd hrest (by simp)
        | some res => simp
      | false => exact hrest

/-- C10: assuming every road's two endpoints are present in the intersection
mapping, every identifier returned by the adjacency query is present in the
road mapping, and every override identifier is present in the road mapping,
all three entry points complete without any failing lookup or unwrap
(including the unwrap in the commit step). -/
theorem wellformed_totality (m : RawMap) (ca : Bool) (ov : Option (List OriginalRoad))
    (H1 : ∀ p ∈ m.roads, (lookupIntersection m p.1.i1).isSome = true ∧
      (lookupIntersection m p.1.i2).isSome = true)
    (H2 : ∀ i : Nat, ∀ c ∈ m.roads_per_intersection i, c ∈ m.roads.map Prod.fst)
    (H3 : ∀ ways, ov = some ways → ∀ w ∈ ways, w ∈ m.roads.map Prod.fst) :
    (find_short_roads m ca ov).isSome = true ∧
    (m.find_traffic_signal_clusters).isSome = true ∧
    (m.find_dog_legs).isSome = true := by
  refine ⟨?_, ?_, ?_⟩
  · have hsub : ∀ id ∈ collectTagged m ca, id ∈ m.roads.map Prod.fst := by
      intro id hid
      obtain ⟨rd, hmem, _⟩ := (collectTaggedGo_mem m ca m.roads id).1 hid
      exact List.mem_map.2 ⟨(id, rd), hmem, rfl⟩
    unfold find_short_roads
    cases ov with
    | none => exact mark_short_roads_isSome m _ hsub
    | some ways =>
      refine mark_short_roads_isSome m _ ?_
      intro id hid
      rcases List.mem_append.1 hid with h | h
      · exact hsub id h
      · exact H3 ways rfl id h
  · have hgo : (signalClustersGo m m.roads).isSome = true := by
      apply signalClustersGo_isSome
      intro p hp
      obtain ⟨hj1, hj2⟩ := H1 p hp
      obtain ⟨j1, hjj1⟩ := Option.isSome_iff_exists.1 hj1
      obtain ⟨j2, hjj2⟩ := Option.isSome_iff_exists.1 hj2
      exact signalClusterCheck_isSome m p.1 p.2 j1 j2 hjj1 hjj2
    cases hg : signalClustersGo m m.roads with
    | none => rw [hg] at hgo; exact absurd hgo (by simp)
    | some results =>
      unfold RawMap.find_traffic_signal_clusters
      rw [hg]
      apply mark_short_roads_isSome
      intro id hid
      obtain ⟨rd, hmem, _⟩ := (signalClustersGo_mem m m.roads results hg id).1 hid
      exact List.mem_map.2 ⟨(id, rd), hmem, rfl⟩
  · have hconn : ∀ i : Nat,
        (dogLegConnsCheck m (m.roads_per_intersection i)).isSome = true := by
      intro i
      apply dogLegConnsCheck_isSome
      intro c hc
      have hck : c ∈ m.roads.map Prod.fst := H2 i c hc
      obtain ⟨rd, hrd⟩ := Option.isSome_iff_exists.1 (lookupRoad_isSome m c hck)
      obtain ⟨p, hp, hpe⟩ := List.mem_map.1 hck
      obtain ⟨hj1, hj2⟩ := H1 p hp
      rw [hpe] at hj1 hj2
      obtain ⟨j1, hjj1⟩ := Option.isSome_iff_exists.1 hj1
      obtain ⟨j2, hjj2⟩ := Option.isSome_iff_exists.1 hj2
      exact dogLegConnCheck_isSome m c rd hrd j1 j2 hjj1 hjj2
    have hgo : (dogLegsGo m (m.roads.map Prod.fst)).isSome = true := by
      apply dogLegsGo_isSome
      intro id _
      exact dogLegCheck_isSome m id
        (dogLegEndpointCheck_isSome m id.i1 (hconn id.i1))
        (dogLegEndpointCheck_isSome m id.i2 (hconn id.i2))
    cases hg : dogLegsGo m (m.roads.map Prod.fst) with
    | none => rw [hg] at hgo; exact absurd hgo (by simp)
    | some results =>
      unfold RawMap.find_dog_legs
      rw [hg]
      apply mark_short_roads_isSome
      intro id hid
      exact ((dogLegsGo_mem m _ results hg id).1 hid).1

theorem wellformed_totality_witness :
    (find_short_roads wMapDogLeg true (some [wRoadA])).isSome = true ∧
    (wMapDogLeg.find_traffic_signal_clusters).isSome = true ∧
    (wMapDogLeg.find_dog_legs).isSome = true :=
  wellformed_totality wMapDogLeg true (some [wRoadA])
    (by decide)
    (fun i => roads_per_intersection_subset wMapDogLeg i)
    (by
      intro ways hw
      injection hw with hw2
      subst hw2
      decide)

/-! ### Idempotence lemmas -/

theorem find_short_roads_none_eq (m : RawMap) (ca : Bool) :
    find_short_roads m ca none = find_short_roads m ca (some []) := by
  unfold find_short_roads
  simp

theorem find_short_roads_some_eq (m : RawMap) (ca : Bool) (ways : List OriginalRoad)
    (m' : RawMap) (res : List OriginalRoad)
    (h : find_short_roads m ca (some ways) = some (m', res)) :
    m' = { m with roads := m.roads.map (markEntry res) } ∧
    res = collectTagged m ca ++ ways ∧ ∀ id ∈ res, id ∈ m.roads.map Prod.fst := by
  have h2 : m.mark_short_roads (collectTagged m ca ++ ways) = some (m', res) := h
  obtain ⟨ha, hb, hc⟩ := mark_short_roads_eq m _ m' res h2
  refine ⟨by rw [ha, hb], hb, ?_⟩
  rw [hb]
  exact hc

theorem mark_short_roads_noop (m : RawMap) (l : List OriginalRoad)
    (hin : ∀ id ∈ l, id ∈ m.roads.map Prod.fst)
    (hfix : m.roads.map (markEntry l) = m.roads) :
    m.mark_short_roads l = some (m, l) := by
  have hs := mark_short_roads_isSome m l hin
  cases hmark : m.mark_short_roads l with
  | none => rw [hmark] at hs; exact absurd hs (by simp)
  | some p =>
    have hp : m.mark_short_roads l = some (p.1, p.2) := by rw [hmark]
    obtain ⟨h1, h2, _⟩ := mark_short_roads_eq m l p.1 p.2 hp
    have hp1 : p.1 = m := by rw [h1, hfix]
    exact congrArg some (Prod.ext hp1 h2)

theorem collect_marked_mem (m : RawMap) (ca : Bool) (res₁ : List OriginalRoad)
    (m₁ : RawMap) (hm1 : m₁ = { m with roads := m.roads.map (markEntry res₁) })
    (r : OriginalRoad) :
    r ∈ collectTagged m₁ ca ↔
      ((r ∈ res₁ ∧ r ∈ m.roads.map Prod.fst) ∨ r ∈ collectTagged m ca) := by
  subst hm1
  constructor
  · intro hc
    obtain ⟨rd', hmem, hcond⟩ := (collectTaggedGo_mem _ ca _ r).1 hc
    obtain ⟨p, hp, hpe⟩ := List.mem_map.1 hmem
    have hp1 : p.1 = r := by rw [← markEntry_fst res₁ p, hpe]
    by_cases hr : r ∈ res₁
    · exact Or.inl ⟨hr, List.mem_map.2 ⟨p, hp, hp1⟩⟩
    · right
      have hme : markEntry res₁ p = p := by
        unfold markEntry
        rw [if_neg (by rw [hp1]; exact hr)]
      rw [hme] at hpe
      have hrd : rd' = p.2 := (congrArg Prod.snd hpe).symm
      apply (collectTaggedGo_mem m ca m.roads r).2
      refine ⟨p.2, by rw [← hp1]; simpa using hp, ?_⟩
      rcases hcond with hc1 | hc1
      · left; rw [← hrd]; exact hc1
      · right; exact hc1
  · rintro (⟨hr, hkey⟩ | hmem)
    · obtain ⟨p, hp, hpe⟩ := List.mem_map.1 hkey
      apply (collectTaggedGo_mem _ ca _ r).2
      refine ⟨tagRoad p.2, ?_, Or.inl (tagRoad_is p.2)⟩
      apply List.mem_map.2
      refine ⟨p, hp, ?_⟩
      unfold markEntry
      rw [if_pos (by rw [hpe]; exact hr), hpe]
    · obtain ⟨rd, hmem', hcond⟩ := (collectTaggedGo_mem m ca m.roads r).1 hmem
      apply (collectTaggedGo_mem _ ca _ r).2
      by_cases hr : r ∈ res₁
      · refine ⟨tagRoad rd, ?_, Or.inl (tagRoad_is rd)⟩
        apply List.mem_map.2
        refine ⟨(r, rd), hmem', ?_⟩
        unfold markEntry
        rw [if_pos hr]
      · refine ⟨rd, ?_, hcond⟩
        apply List.mem_map.2
        refine ⟨(r, rd), hmem', ?_⟩
        unfold markEntry
        rw [if_neg hr]

theorem find_short_roads_idem_some (m : RawMap) (ca : Bool) (ways : List OriginalRoad)
    (m₁ : RawMap) (res₁ : List OriginalRoad)
    (h : find_short_roads m ca (some ways) = some (m₁, res₁)) :
    ∃ res₂, find_short_roads m₁ ca (some ways) = some (m₁, res₂) ∧
      ∀ r, r ∈ res₂ ↔ r ∈ res₁ := by
  obtain ⟨hm1, hres1, hsub1⟩ := find_short_roads_some_eq m ca ways m₁ res₁ h
  have hset : ∀ r, r ∈ collectTagged m₁ ca ++ ways ↔ r ∈ res₁ := by
    intro r
    rw [List.mem_append]
    constructor
    · rintro (hc | hw)
      · rcases (collect_marked_mem m ca res₁ m₁ hm1 r).1 hc with ⟨hr, _⟩ | hc2
        · exact hr
        · rw [hres1]
          exact List.mem_append_left _ hc2
      · rw [hres1]
        exact List.mem_append_right _ hw
    · intro hr
      have hr2 := hr
      rw [hres1, List.mem_append] at hr2
      rcases hr2 with hc | hw
      · exact Or.inl ((collect_marked_mem m ca res₁ m₁ hm1 r).2 (Or.inr hc))
      · exact Or.inr hw
  have hkeys1 : m₁.roads.map Prod.fst = m.roads.map Prod.fst := by
    have hroads : m₁.roads = m.roads.map (markEntry res₁) := by rw [hm1]
    rw [hroads, List.map_map]
    exact List.map_congr_left (fun p _ => markEntry_fst res₁ p)
  have htot : ∀ id ∈ collectTagged m₁ ca ++ ways, id ∈ m₁.roads.map Prod.fst := by
    intro id hid
    rw [hkeys1]
    exact hsub1 id ((hset id).1 hid)
  have hfix : m₁.roads.map (markEntry (collectTagged m₁ ca ++ ways)) = m₁.roads := by
    have hroads : m₁.roads = m.roads.map (markEntry res₁) := by rw [hm1]
    rw [hroads, List.map_map]
    apply List.map_congr_left
    intro p _
    by_cases hp : p.1 ∈ res₁
    · by_cases hpl : p.1 ∈ collectTagged m₁ ca ++ ways
      · simp [Function.comp, markEntry, hp, hpl, tagRoad_idem]
      · simp [Function.comp, markEntry, hp, hpl]
    · have hpl : p.1 ∉ collectTagged m₁ ca ++ ways := fun hx => hp ((hset p.1).1 hx)
      simp [Function.comp, markEntry, hp, hpl]
  refine ⟨collectTagged m₁ ca ++ ways, ?_, hset⟩
  exact mark_short_roads_noop m₁ (collectTagged m₁ ca ++ ways) htot hfix

/-- C4: running `find_short_roads` a second time, immediately after a first
run and with the same `consolidate_all` and override list, flags the same
set of road identifiers and leaves the graph exactly in the state produced
by the first run. -/
theorem find_short_roads_idempotent (m : RawMap) (ca : Bool)
    (ov : Option (List OriginalRoad)) (m₁ : RawMap) (res₁ : List OriginalRoad)
    (h : find_short_roads m ca ov = some (m₁, res₁)) :
    ∃ res₂, find_short_roads m₁ ca ov = some (m₁, res₂) ∧
      ∀ r, r ∈ res₂ ↔ r ∈ res₁ := by
  cases ov with
  | some ways => exact find_short_roads_idem_some m ca ways m₁ res₁ h
  | none =>
    rw [find_short_roads_none_eq] at h
    rw [find_short_roads_none_eq]
    exact find_short_roads_idem_some m ca [] m₁ res₁ h

theorem find_short_roads_idempotent_witness :
    ∃ res₂, find_short_roads wMapPlainAfter false (some [wRoadA]) =
        some (wMapPlainAfter, res₂) ∧
      ∀ r, r ∈ res₂ ↔ r ∈ ([wRoadA] : List OriginalRoad) :=
  find_short_roads_idempotent wMapPlain false (some [wRoadA]) wMapPlainAfter [wRoadA] (by rfl)
